import Mathlib

/-!
Verification development for the ec-debugger log-scraping and correlation
engine.  The Python sources (extract_violations.py, extract_image_refs.py,
extract_components.py, auto_resolve.py) are shallowly embedded over
`List String` line sequences (the result of `readlines`, so a line normally
carries its trailing newline character).  Python strings are Lean `String`s;
Python string methods (`strip`, `startswith`, `replace`, `split`, `in`,
`count`) are re-implemented over `List Char` with the semantics of the
CPython ones restricted to ASCII whitespace.  Fallible extractors return
`Except`; Python `None` is `Option.none`.
-/

/-- Whitespace class used by Python `str.strip` and by `\s` in the patterns
of the source, restricted to the ASCII whitespace characters
space, tab, newline, carriage return, vertical tab and form feed. -/
def isPySpace (c : Char) : Bool :=
  c == ' ' || c == Char.ofNat 9 || c == Char.ofNat 10 || c == Char.ofNat 13 ||
  c == Char.ofNat 11 || c == Char.ofNat 12

/-- Test whether the first list is a leading segment of the second. -/
def isPrefL : List Char → List Char → Bool
  | [], _ => true
  | _ :: _, [] => false
  | p :: ps, q :: qs => p == q && isPrefL ps qs

/-- Test whether the first list occurs contiguously anywhere inside the
second; this is the semantics of the Python `in` operator on strings. -/
def isInfL (pat : List Char) : List Char → Bool
  | [] => isPrefL pat []
  | s@(_ :: rest) => isPrefL pat s || isInfL pat rest

/-- Python `s.startswith(pat)`. -/
def pyStartsWith (s pat : String) : Bool := isPrefL pat.data s.data

/-- Python `pat in s` (substring containment). -/
def containsSub (s pat : String) : Bool := isInfL pat.data s.data

/-- Drop trailing characters satisfying `p`. -/
def dropTrail (p : Char → Bool) (s : List Char) : List Char :=
  (s.reverse.dropWhile p).reverse

/-- Python `s.strip()` on a character list. -/
def pyStripList (s : List Char) : List Char :=
  dropTrail isPySpace (s.dropWhile isPySpace)

/-- Python `s.strip()`. -/
def pyStrip (s : String) : String := String.mk (pyStripList s.data)

/-- Fuel-driven worker for `pyReplace`; the fuel is the length of the
scanned text, which is enough because every step consumes at least one
character of it. -/
def replaceFuel (pat rep : List Char) : Nat → List Char → List Char
  | 0, s => s
  | _ + 1, [] => []
  | fuel + 1, c :: rest =>
    if isPrefL pat (c :: rest) then
      rep ++ replaceFuel pat rep fuel (rest.drop (pat.length - 1))
    else
      c :: replaceFuel pat rep fuel rest

/-- Python `s.replace(pat, rep)` for a non-empty pattern: every
non-overlapping occurrence, scanned left to right, is replaced. -/
def pyReplace (s pat rep : String) : String :=
  String.mk (replaceFuel pat.data rep.data s.data.length s.data)

/-- Fuel-driven worker for `pySplit`; fuel as in `replaceFuel`. -/
def splitFuel (pat : List Char) : Nat → List Char → List (List Char)
  | _, [] => [[]]
  | 0, s => [s]
  | fuel + 1, c :: rest =>
    if isPrefL pat (c :: rest) then
      [] :: splitFuel pat fuel (rest.drop (pat.length - 1))
    else
      match splitFuel pat fuel rest with
      | [] => [[c]]
      | h :: t => (c :: h) :: t

/-- Python `s.split(pat)` for a non-empty separator. -/
def pySplit (s pat : String) : List String :=
  (splitFuel pat.data s.data.length s.data).map String.mk

/-- Count the occurrences of a character, Python `s.count(c)` for a
single-character argument. -/
def countChar (s : String) (c : Char) : Nat := s.data.count c

/-- Join a list of character lists with a newline between the pieces. -/
def joinNLList : List (List Char) → List Char
  | [] => []
  | [x] => x
  | x :: xs => x ++ Char.ofNat 10 :: joinNLList xs

/-- Python `"\n".join(l)`. -/
def joinNL (l : List String) : String := String.mk (joinNLList (l.map String.data))

/-- Concatenation of a list of strings, Python `"".join(l)`. -/
def concatAll (l : List String) : String := String.mk (l.map String.data).flatten

/-- Marker of a violation line as it is literally written in the source
pattern of extract_violations.py: the three-character sequence U+00E2,
U+0153, U+2022 (the UTF-8 bytes of U+2715 decoded as cp1252 and saved
back as UTF-8), not the single check-mark character it renders from. -/
def vmark : String := "\u00E2\u0153\u2022"

/-- Literal tag following the marker on a violation line. -/
def vtag : String := "[Violation]"

/-- Model of `re.match` applied with the violation-start pattern
(the three marker characters, one or more whitespace, the literal tag,
one or more whitespace, then a group of one or more characters other than
newline) to a line, returning the text captured by the group.  The last
alternative models the backtracking of the whitespace run when nothing
but whitespace follows the tag: the group can then still match a single
trailing space or tab. -/
def pvStartL (s : List Char) : Option (List Char) :=
  if ¬ isPrefL vmark.data s then none
  else
    let rest := s.drop vmark.length
    let ws1 := rest.takeWhile isPySpace
    let r1 := rest.dropWhile isPySpace
    if ws1.isEmpty then none
    else if ¬ isPrefL vtag.data r1 then none
    else
      let r2 := r1.drop vtag.length
      let ws2 := r2.takeWhile isPySpace
      let r3 := r2.dropWhile isPySpace
      if ws2.isEmpty then none
      else if ¬ r3.isEmpty then some (r3.takeWhile (fun d => d ≠ Char.ofNat 10))
      else if ws2.length ≥ 2 ∧ ws2.getLastD ' ' ≠ Char.ofNat 10 then
        some [ws2.getLastD ' ']
      else none

/-- Violation-start match on a line already stripped by the caller. -/
def pvStart (line : String) : Option String := (pvStartL line.data).map String.mk

/-- Names of the six optional labeled fields of a violation record. -/
inductive FieldName where
  | image_ref | reason | term | title | description | solution
deriving Repr, DecidableEq

/-- Structured violation record, the dictionary built by
`parse_violation_block`: the rule is always present, the labeled fields
start out as `none` (Python `None`). -/
structure Violation where
  rule : String
  image_ref : Option String := none
  reason : Option String := none
  term : Option String := none
  title : Option String := none
  description : Option String := none
  solution : Option String := none
deriving Repr, DecidableEq

/-- Write one labeled field of a violation record. -/
def setField (v : Violation) (f : FieldName) (s : String) : Violation :=
  match f with
  | .image_ref => { v with image_ref := some s }
  | .reason => { v with reason := some s }
  | .term => { v with term := some s }
  | .title => { v with title := some s }
  | .description => { v with description := some s }
  | .solution => { v with solution := some s }

/-- Read one labeled field of a violation record. -/
def getField (v : Violation) (f : FieldName) : Option String :=
  match f with
  | .image_ref => v.image_ref
  | .reason => v.reason
  | .term => v.term
  | .title => v.title
  | .description => v.description
  | .solution => v.solution

/-- Classify a stripped line against the six field labels, in the order the
source checks them, and compute the seed value of the new buffer
(the line with every occurrence of the label removed, then stripped). -/
def labelOf (line : String) : Option (FieldName × String) :=
  if pyStartsWith line "ImageRef:" then some (.image_ref, pyStrip (pyReplace line "ImageRef:" ""))
  else if pyStartsWith line "Reason:" then some (.reason, pyStrip (pyReplace line "Reason:" ""))
  else if pyStartsWith line "Term:" then some (.term, pyStrip (pyReplace line "Term:" ""))
  else if pyStartsWith line "Title:" then some (.title, pyStrip (pyReplace line "Title:" ""))
  else if pyStartsWith line "Description:" then some (.description, pyStrip (pyReplace line "Description:" ""))
  else if pyStartsWith line "Solution:" then some (.solution, pyStrip (pyReplace line "Solution:" ""))
  else none

/-- Python truthiness of an optional string: `None` and the empty string
are falsy. -/
def pyFalsyStr : Option String → Bool
  | none => true
  | some s => s == ""

/-- Flush of the pending field buffer: executed only when both the current
field and the buffer are truthy, it joins the buffered lines with a newline
and strips the surrounding whitespace of the result. -/
def flushInto (v : Violation) (cf : Option FieldName) (cv : List String) : Violation :=
  match cf with
  | some f => if cv ≠ [] then setField v f (pyStrip (joinNL cv)) else v
  | none => v

/-- Line loop of `parse_violation_block` over the lines following the start
line.  State: the record built so far, the current field, the buffer of
accumulated value lines.  Returns the finished record and the number of
lines consumed before the stop position (a blank line stops the loop
without being consumed; end of input also stops it). -/
def parseLoop : List String → Violation → Option FieldName → List String → Violation × Nat
  | [], v, cf, cv => (flushInto v cf cv, 0)
  | l :: rest, v, cf, cv =>
    let line := pyStrip l
    if line = "" then (flushInto v cf cv, 0)
    else
      match labelOf line with
      | some (f, seed) =>
        let r := parseLoop rest (flushInto v cf cv) (some f) [seed]
        (r.1, r.2 + 1)
      | none =>
        match cf with
        | some _ =>
          let r := parseLoop rest v cf (cv ++ [line])
          (r.1, r.2 + 1)
        | none =>
          if pyFalsyStr v.reason then
            let r := parseLoop rest { v with reason := some line } none cv
            (r.1, r.2 + 1)
          else
            let r := parseLoop rest v none (cv ++ [line])
            (r.1, r.2 + 1)

/-- Embedding of `parse_violation_block(lines, start_idx)`: checks the
stripped start line against the violation-start pattern and, on a match,
runs the field loop on the following lines.  Returns the optional record
and the next index exactly as the source does. -/
def parse_violation_block (lines : List String) (start_idx : Nat) : Option Violation × Nat :=
  if start_idx ≥ lines.length then (none, start_idx)
  else
    match pvStart (pyStrip (lines.getD start_idx "")) with
    | none => (none, start_idx + 1)
    | some g =>
      let v0 : Violation := { rule := pyStrip g }
      let r := parseLoop (lines.drop (start_idx + 1)) v0 none []
      (some r.1, start_idx + 1 + r.2)

/-- Driver loop of `extract_violations`; the fuel bounds the number of
iterations and `lines.length + 1` is always enough because the index
strictly increases on every iteration. -/
def extractLoop (lines : List String) : Nat → Nat → List Violation
  | 0, _ => []
  | fuel + 1, idx =>
    if idx < lines.length then
      match parse_violation_block lines idx with
      | (some v, next) => v :: extractLoop lines fuel next
      | (none, next) => extractLoop lines fuel next
    else []

/-- Embedding of `extract_violations`: collect every parsed violation block
of the line sequence.  The function is total; zero violations yield the
empty list, never an error. -/
def extract_violations (lines : List String) : List Violation :=
  extractLoop lines (lines.length + 1) 0

/-- Lines of a labeled-segment list: each segment is one label line
followed by its continuation lines. -/
def segLines (segs : List (String × List String)) : List String :=
  (segs.map (fun p => p.1 :: p.2)).flatten

/-- Specification of one flush: the field opened by the segment's label
line receives the seed together with the individually stripped
continuation lines, joined by single newlines, with the surrounding
whitespace of the joined value trimmed. -/
def segFlush (v : Violation) (p : String × List String) : Violation :=
  match labelOf (pyStrip p.1) with
  | some (f, seed) => setField v f (pyStrip (joinNL (seed :: p.2.map pyStrip)))
  | none => v

/-- Specification of a whole labeled block: flush every segment in order
(a repeated label overwrites, as in the source). -/
def applySegs (v : Violation) (segs : List (String × List String)) : Violation :=
  segs.foldl segFlush v

/-! ### Predicates used by the violation-record invariants -/

/-- Predicate of claim C4 on a violation record: every optional field is
either absent or a nonempty string. -/
def goodViolation (v : Violation) : Prop :=
  ∀ f : FieldName, getField v f = none ∨ ∃ s, getField v f = some s ∧ s ≠ ""

/-- Invariant of the pending field buffer: all entries are nonempty
strings that are fixpoints of stripping (they arise as strips). -/
def goodBuffer (cv : List String) : Prop :=
  ∀ x ∈ cv, x ≠ "" ∧ ∃ y, x = pyStrip y

/-! ### The image-reference list scanner (extract_image_refs.py) -/

/-- Locate the first line whose strip equals the section marker
`STEP-VALIDATE`, carrying the running index. -/
def findMarkerAux : List String → Nat → Option Nat
  | [], _ => none
  | l :: rest, i =>
    if pyStrip l = "STEP-VALIDATE" then some i else findMarkerAux rest (i + 1)

/-- Index of the `STEP-VALIDATE` marker line, when present. -/
def findMarkerIdx (lines : List String) : Option Nat := findMarkerAux lines 0

/-- Scan loop of `extract_image_refs` over the lines after the marker.
Arguments: remaining lines, current index, the start index of the scan,
the `in_components` flag, the `component_list` side buffer, the
accumulated `image_refs`, and the `seen_refs` set (modelled as a list).
Returns the final `(image_refs, component_list)` pair at a stop line or
at the end of input. -/
def irLoop : List String → Nat → Nat → Bool → List String → List String → List String →
    List String × List String
  | [], _, _, _, cl, irs, _ => (irs, cl)
  | l :: rest, i, s, inc, cl, irs, seen =>
    let st := pyStrip l
    if pyStartsWith st "Results:" then (irs, cl)
    else if pyStartsWith st "STEP-" ∧ i > s then (irs, cl)
    else
      let p1 : List String × List String :=
        if pyStartsWith st "ImageRef:" then
          let r := pyStrip (pyReplace st "ImageRef:" "")
          if r ≠ "" ∧ r ∉ seen then (irs ++ [r], seen ++ [r]) else (irs, seen)
        else (irs, seen)
      let irs2 := p1.1
      let seen2 := p1.2
      if pyStartsWith st "COMPONENTS:" then irLoop rest (i + 1) s true cl irs2 seen2
      else if inc then
        if pyStartsWith st "ImageRef:" then
          let r := pyStrip (pyReplace st "ImageRef:" "")
          if r ≠ "" ∧ r ∉ seen2 then irLoop rest (i + 1) s inc (cl ++ [r]) irs2 (seen2 ++ [r])
          else irLoop rest (i + 1) s inc cl irs2 seen2
        else if st = "" ∨ pyStartsWith st "Results:" then
          irLoop rest (i + 1) s false [] (if cl ≠ [] then irs2 ++ cl else irs2) seen2
        else irLoop rest (i + 1) s inc cl irs2 seen2
      else irLoop rest (i + 1) s inc cl irs2 seen2

/-- Errors of the image-reference extractor: the section marker is absent
or no reference was found inside the section. -/
inductive IRError where
  | sectionMissing
  | noRefs
deriving Repr, DecidableEq

/-- Embedding of `extract_image_refs`: locate the `STEP-VALIDATE` marker,
scan its header region, flush any remaining side buffer, and fail on an
empty result. -/
def extract_image_refs (lines : List String) : Except IRError (List String) :=
  match findMarkerIdx lines with
  | none => .error .sectionMissing
  | some mi =>
    let r := irLoop (lines.drop (mi + 1)) (mi + 1) (mi + 1) false [] [] []
    let irs := if r.2 ≠ [] then r.1 ++ r.2 else r.1
    if irs = [] then .error .noRefs else .ok irs

/-- Specification-level stream of candidate references: the values of the
`ImageRef:` lines of the scanned region, in order, with empty values
dropped and duplicates kept. -/
def irCandidates : List String → Nat → Nat → List String
  | [], _, _ => []
  | l :: rest, i, s =>
    let st := pyStrip l
    if pyStartsWith st "Results:" then []
    else if pyStartsWith st "STEP-" ∧ i > s then []
    else if pyStartsWith st "ImageRef:" then
      let r := pyStrip (pyReplace st "ImageRef:" "")
      if r ≠ "" then r :: irCandidates rest (i + 1) s else irCandidates rest (i + 1) s
    else irCandidates rest (i + 1) s

/-- Keep the first occurrence of every value not already seen. -/
def dedupFirst (seen : List String) : List String → List String
  | [] => []
  | x :: xs => if x ∈ seen then dedupFirst seen xs else x :: dedupFirst (seen ++ [x]) xs

/-! ### The correlator (auto_resolve.py, match_component_to_violation) -/

/-- Component record as used by the correlator: only the recorded
container-image reference matters; a missing `containerImage` key is the
empty string, the default of the `.get` call of the source. -/
structure Component where
  containerImage : String
deriving Repr, DecidableEq

/-- Whether a reference carries a digest separator. -/
def hasSha (s : String) : Bool := containsSub s "@sha256:"

/-- Text after the last digest separator, Python
`s.split("@sha256:")[-1]`. -/
def digestOf (s : String) : String := (pySplit s "@sha256:").getLastD ""

/-- Name part of a reference, Python
`s.split("@")[0] if "@" in s else s`. -/
def nameOf (s : String) : String :=
  if containsSub s "@" then (pySplit s "@").headD "" else s

/-- Digest of the violation reference, computed once before the loop. -/
def violationDigest (ref : String) : Option String :=
  if hasSha ref then some (digestOf ref) else none

/-- Python truthiness of the optional digest string: `None` and the empty
string are falsy, exactly the guard `if violation_digest and ...` of the
source (a reference ending in `@sha256:` yields the falsy digest `""`). -/
def digestTruthy (vd : Option String) : Bool :=
  match vd with
  | none => false
  | some d => ¬ d = ""

/-- Loop body of the correlator: for each component in list order, try
exact equality, then digest equality (guarded by the truthiness of the
violation digest), then the name-plus-digest-substring fallback (same
guard); the first component for which any rule fires is returned. -/
def match_loop (ref : String) (vd : Option String) : List Component → Option Component
  | [] => none
  | c :: restC =>
    let ci := c.containerImage
    if ci = "" then match_loop ref vd restC
    else if ci = ref then some c
    else if (digestTruthy vd && hasSha ci) && (digestOf ci == vd.getD "") then some c
    else if (nameOf ref == nameOf ci) && digestTruthy vd && containsSub ci (vd.getD "") then
      some c
    else match_loop ref vd restC

/-- Embedding of `match_component_to_violation`. -/
def match_component_to_violation (ref : String) (comps : List Component) : Option Component :=
  if ref = "" ∨ comps = [] then none
  else match_loop ref (violationDigest ref) comps

/-- One-component matching predicate equivalent to the three rules of the
loop body, used to state the first-match characterization. -/
def matchesComponent (ref : String) (vd : Option String) (c : Component) : Bool :=
  let ci := c.containerImage
  if ci = "" then false
  else if ci = ref then true
  else if (digestTruthy vd && hasSha ci) && (digestOf ci == vd.getD "") then true
  else (nameOf ref == nameOf ci) && digestTruthy vd && containsSub ci (vd.getD "")

/-! ### A model of Python json.loads (strict JSON) -/

/-- Opening brace character. -/
def lbrace : Char := Char.ofNat 123

/-- Closing brace character. -/
def rbrace : Char := Char.ofNat 125

/-- JSON values as decoded by `json.loads`: objects keep their key order,
numbers keep their source lexeme (no numeric semantics of the claims
depends on float values). -/
inductive JVal where
  | null
  | bool (b : Bool)
  | num (lit : String)
  | str (s : String)
  | arr (elems : List JVal)
  | obj (fields : List (String × JVal))
deriving Repr, Inhabited

/-- JSON whitespace accepted between tokens. -/
def jsonWs (c : Char) : Bool :=
  c == ' ' || c == Char.ofNat 9 || c == Char.ofNat 10 || c == Char.ofNat 13

/-- Skip JSON whitespace. -/
def skipWs (s : List Char) : List Char := s.dropWhile jsonWs

/-- Value of a hexadecimal digit. -/
def hexVal (c : Char) : Option Nat :=
  if c.isDigit then some (c.toNat - 48)
  else if 'a' ≤ c ∧ c ≤ 'f' then some (c.toNat - 87)
  else if 'A' ≤ c ∧ c ≤ 'F' then some (c.toNat - 55)
  else none

/-- Parse the characters of a JSON string after the opening quote, with
the standard escapes; control characters are rejected as in strict mode.
Returns the decoded characters and the input after the closing quote. -/
def parseStrChars : Nat → List Char → Option (List Char × List Char)
  | 0, _ => none
  | _ + 1, [] => none
  | fuel + 1, c :: rest =>
    if c = '"' then some ([], rest)
    else if c = '\\' then
      match rest with
      | [] => none
      | e :: rest2 =>
        if e = 'u' then
          match rest2 with
          | h1 :: h2 :: h3 :: h4 :: rest3 =>
            match hexVal h1, hexVal h2, hexVal h3, hexVal h4 with
            | some v1, some v2, some v3, some v4 =>
              (parseStrChars fuel rest3).map
                (fun pr => (Char.ofNat (((v1 * 16 + v2) * 16 + v3) * 16 + v4) :: pr.1, pr.2))
            | _, _, _, _ => none
          | _ => none
        else
          match (if e = '"' then some '"' else if e = '\\' then some '\\'
                 else if e = '/' then some '/' else if e = 'b' then some (Char.ofNat 8)
                 else if e = 'f' then some (Char.ofNat 12)
                 else if e = 'n' then some (Char.ofNat 10)
                 else if e = 'r' then some (Char.ofNat 13)
                 else if e = 't' then some (Char.ofNat 9)
                 else none) with
          | some ch => (parseStrChars fuel rest2).map (fun pr => (ch :: pr.1, pr.2))
          | none => none
    else if c.toNat < 32 then none
    else (parseStrChars fuel rest).map (fun pr => (c :: pr.1, pr.2))

/-- Optional fraction part of a number literal. -/
def parseFrac (s : List Char) : List Char × List Char :=
  match s with
  | d :: r2 =>
    if d = '.' then
      match r2.takeWhile Char.isDigit with
      | [] => ([], s)
      | ds => (d :: ds, r2.dropWhile Char.isDigit)
    else ([], s)
  | [] => ([], s)

/-- Optional exponent part of a number literal. -/
def parseExp (s : List Char) : List Char × List Char :=
  match s with
  | e :: r2 =>
    if e = 'e' ∨ e = 'E' then
      match r2 with
      | c :: r4 =>
        if c = '+' ∨ c = '-' then
          match r4.takeWhile Char.isDigit with
          | [] => ([], s)
          | ds => (e :: c :: ds, r4.dropWhile Char.isDigit)
        else
          match r2.takeWhile Char.isDigit with
          | [] => ([], s)
          | ds => (e :: ds, r2.dropWhile Char.isDigit)
      | [] => ([], s)
    else ([], s)
  | [] => ([], s)

/-- Lexeme of a JSON number at the head of the input, following the strict
grammar (no leading zeros, fraction and exponent only when complete). -/
def parseNumLit (s : List Char) : Option (List Char × List Char) :=
  let pr :=
    match s with
    | c :: rest => if c = '-' then (([c] : List Char), rest) else (([] : List Char), s)
    | [] => (([] : List Char), s)
  match pr.2 with
  | [] => none
  | c :: rest =>
    if c = '0' then
      let f := parseFrac rest
      let e := parseExp f.2
      some (pr.1 ++ [c] ++ f.1 ++ e.1, e.2)
    else if c.isDigit then
      let ip := c :: rest.takeWhile Char.isDigit
      let s2 := rest.dropWhile Char.isDigit
      let f := parseFrac s2
      let e := parseExp f.2
      some (pr.1 ++ ip ++ f.1 ++ e.1, e.2)
    else none

mutual

/-- Parse one JSON value at the head of the input (after whitespace). -/
def parseJVal : Nat → List Char → Option (JVal × List Char)
  | 0, _ => none
  | fuel + 1, s =>
    match skipWs s with
    | [] => none
    | c :: rest =>
      if c = 'n' then
        if isPrefL "ull".data rest then some (.null, rest.drop 3) else none
      else if c = 't' then
        if isPrefL "rue".data rest then some (.bool true, rest.drop 3) else none
      else if c = 'f' then
        if isPrefL "alse".data rest then some (.bool false, rest.drop 4) else none
      else if c = '"' then
        (parseStrChars (rest.length + 1) rest).map
          (fun pr => (.str (String.mk pr.1), pr.2))
      else if c = '[' then
        match skipWs rest with
        | ']' :: r2 => some (.arr [], r2)
        | r2 => (parseItems fuel r2).map (fun pr => (.arr pr.1, pr.2))
      else if c = lbrace then
        match skipWs rest with
        | d :: r2 =>
          if d = rbrace then some (.obj [], r2)
          else (parseMembers fuel (d :: r2)).map (fun pr => (.obj pr.1, pr.2))
        | [] => none
      else
        (parseNumLit (c :: rest)).map (fun pr => (.num (String.mk pr.1), pr.2))

/-- Parse the elements of a nonempty JSON array up to the closing
bracket. -/
def parseItems : Nat → List Char → Option (List JVal × List Char)
  | 0, _ => none
  | fuel + 1, s =>
    match parseJVal fuel s with
    | none => none
    | some (v, r1) =>
      match skipWs r1 with
      | ',' :: r2 => (parseItems fuel r2).map (fun pr => (v :: pr.1, pr.2))
      | ']' :: r2 => some ([v], r2)
      | _ => none

/-- Parse the members of a nonempty JSON object up to the closing
brace. -/
def parseMembers : Nat → List Char → Option (List (String × JVal) × List Char)
  | 0, _ => none
  | fuel + 1, s =>
    match skipWs s with
    | '"' :: r1 =>
      match parseStrChars (r1.length + 1) r1 with
      | none => none
      | some (k, r2) =>
        match skipWs r2 with
        | ':' :: r3 =>
          match parseJVal fuel r3 with
          | none => none
          | some (v, r4) =>
            match skipWs r4 with
            | ',' :: r5 =>
              (parseMembers fuel r5).map (fun pr => ((String.mk k, v) :: pr.1, pr.2))
            | d :: r5 => if d = rbrace then some ([(String.mk k, v)], r5) else none
            | [] => none
        | _ => none
    | _ => none

end

/-- Model of `json.loads`: parse one value and require only whitespace to
remain. -/
def jsonParse (s : String) : Option JVal :=
  match parseJVal (2 * s.data.length + 4) s.data with
  | some (v, rest) => if skipWs rest = [] then some v else none
  | none => none

/-- Python dictionary lookup on a decoded object: with duplicate keys the
last binding wins, as in `json.loads`; on non-objects the lookup is
empty. -/
def lookupLast : List (String × JVal) → String → Option JVal
  | [], _ => none
  | (k, v) :: rest, key =>
    match lookupLast rest key with
    | some r => some r
    | none => if k = key then some v else none

/-- Key membership and access, Python `key in data` plus `data[key]`. -/
def jGet : JVal → String → Option JVal
  | .obj kvs, key => lookupLast kvs key
  | _, _ => none

/-- Python truthiness of a decoded JSON value; a number is falsy when its
mantissa has no nonzero digit. -/
def jFalsy : JVal → Bool
  | .null => true
  | .bool b => !b
  | .num lit =>
    (lit.data.takeWhile (fun c => c ≠ 'e' ∧ c ≠ 'E')).all
      (fun c => ¬ ('1' ≤ c ∧ c ≤ '9'))
  | .str s => s == ""
  | .arr l => l.isEmpty
  | .obj kvs => kvs.isEmpty

/-! ### The components extractor (extract_components.py) -/

/-- Locate the first line whose strip starts with an opening brace and
whose raw text contains one of the expected quoted keys. -/
def findComponentsAux : List String → Nat → Option Nat
  | [], _ => none
  | l :: rest, i =>
    if pyStartsWith (pyStrip l) "\x7b" ∧
        (containsSub l "\"components\"" ∨ containsSub l "\"component\""
          ∨ containsSub l "\"application\"") then some i
    else findComponentsAux rest (i + 1)

/-- Start index of the components JSON block, when present. -/
def findComponentsStart (lines : List String) : Option Nat := findComponentsAux lines 0

/-- Brace-counting accumulation of `extract_components`: every raw line is
appended, the counter adds the opening braces and subtracts the closing
braces of the raw line, and the loop stops after the first non-initial
line on which the counter is zero. -/
def braceLoop : List String → Int → Bool → List String
  | [], _, _ => []
  | l :: rest, bc, first =>
    let bc2 := bc + (countChar l lbrace : Int) - (countChar l rbrace : Int)
    if bc2 = 0 ∧ ¬ first then [l]
    else l :: braceLoop rest bc2 false

/-- The raw text recovered by the brace-counting loop, when a start line
exists. -/
def componentsJsonStr (lines : List String) : Option String :=
  (findComponentsStart lines).map (fun i => concatAll (braceLoop (lines.drop i) 0 true))

/-- Errors of the components extractor, matching the `ValueError` messages
of the source: no block found, JSON parse failure, missing key, empty
components value. -/
inductive CompErr where
  | noBlock
  | parseFailed
  | noComponentKey
  | emptyComponents
deriving Repr, DecidableEq

/-- Embedding of `extract_components`: recover the block by brace
counting, decode it, then normalize the plural or singular root key to the
components value, failing on a falsy result or a missing key. -/
def extract_components (lines : List String) : Except CompErr JVal :=
  match componentsJsonStr lines with
  | none => .error .noBlock
  | some s =>
    match jsonParse s with
    | none => .error .parseFailed
    | some data =>
      match jGet data "components" with
      | some comps => if jFalsy comps then .error .emptyComponents else .ok comps
      | none =>
        match jGet data "component" with
        | some c =>
          let comps := JVal.arr [c]
          if jFalsy comps then .error .emptyComponents else .ok comps
        | none => .error .noComponentKey

/-! ### Generic list and stripping lemmas -/

/-- Head of a nonempty `dropWhile` result fails the predicate. -/
theorem dropWhile_head_not {α : Type} (p : α → Bool) :
    ∀ (l : List α) c t, List.dropWhile p l = c :: t → p c = false := by
  intro l
  induction l with
  | nil => intro c t h; simp [List.dropWhile] at h
  | cons a l ih =>
    intro c t h
    by_cases hp : p a
    · rw [List.dropWhile_cons_of_pos hp] at h; exact ih c t h
    · rw [List.dropWhile_cons_of_neg hp] at h
      cases h
      simpa using hp

/-- Successful prefix test decomposes the larger list. -/
theorem isPrefL_decomp : ∀ (p q : List Char), isPrefL p q = true → q = p ++ q.drop p.length := by
  intro p
  induction p with
  | nil => intro q _; simp
  | cons a ps ih =>
    intro q h
    cases q with
    | nil => simp [isPrefL] at h
    | cons b qs =>
      simp only [isPrefL, Bool.and_eq_true, beq_iff_eq] at h
      obtain ⟨rfl, h2⟩ := h
      simp only [List.cons_append, List.length_cons, List.drop_succ_cons, List.cons.injEq,
        true_and]
      exact ih qs h2

/-- Python strip yields either the empty list or a list whose final
character is not whitespace. -/
theorem pyStripList_last (s : List Char) :
    pyStripList s = [] ∨ ∃ l c, pyStripList s = l ++ [c] ∧ isPySpace c = false := by
  cases h : (s.dropWhile isPySpace).reverse.dropWhile isPySpace with
  | nil => left; simp [pyStripList, dropTrail, h]
  | cons c t =>
    right
    exact ⟨t.reverse, c, by simp [pyStripList, dropTrail, h],
      dropWhile_head_not _ _ _ _ h⟩

/-- Python strip of a list with a non-whitespace head is nonempty. -/
theorem pyStripList_cons_not_space (d : Char) (t : List Char) (hd : isPySpace d = false) :
    pyStripList (d :: t) ≠ [] := by
  unfold pyStripList dropTrail
  rw [List.dropWhile_cons_of_neg (by simp [hd])]
  intro hcontra
  have h0 : (d :: t).reverse.dropWhile isPySpace = [] := by
    simpa using congrArg List.reverse hcontra
  rw [List.dropWhile_eq_nil_iff] at h0
  have := h0 d (by simp)
  rw [hd] at this
  cases this

/-! ### The violation-start pattern on stripped lines -/

/-- Case analysis on a successful violation-start match: either the
captured group strips to a nonempty string, or the matched line ends in a
nonempty run of whitespace (the backtracking branch of the pattern). -/
theorem pvStartL_cases (L g : List Char) (h : pvStartL L = some g) :
    pyStripList g ≠ [] ∨
    ∃ pre ws, L = pre ++ ws ∧ ws ≠ [] ∧ ∀ x ∈ ws, isPySpace x = true := by
  by_cases h1 : isPrefL vmark.data L = true
  case neg => simp [pvStartL, h1] at h
  by_cases h2 : ((L.drop vmark.length).takeWhile isPySpace).isEmpty
  case pos => simp [pvStartL, h1, h2] at h
  by_cases h3 : isPrefL vtag.data ((L.drop vmark.length).dropWhile isPySpace)
  case neg => simp [pvStartL, h1, h2, h3] at h
  by_cases h4 : ((((L.drop vmark.length).dropWhile isPySpace).drop
      vtag.length).takeWhile isPySpace).isEmpty
  case pos => simp [pvStartL, h1, h2, h3, h4] at h
  by_cases h5 : ((((L.drop vmark.length).dropWhile isPySpace).drop
      vtag.length).dropWhile isPySpace).isEmpty
  · -- branch B of the pattern: only whitespace follows the tag
    right
    have hLdec : L = vmark.data ++ L.drop vmark.length := by
      rw [show vmark.length = vmark.data.length from rfl]
      exact isPrefL_decomp _ _ h1
    have hconc : (L.drop vmark.length).takeWhile isPySpace
        ++ (L.drop vmark.length).dropWhile isPySpace = L.drop vmark.length :=
      List.takeWhile_append_dropWhile isPySpace _
    have hdec : (L.drop vmark.length).dropWhile isPySpace
        = vtag.data ++ ((L.drop vmark.length).dropWhile isPySpace).drop vtag.length := by
      rw [show vtag.length = vtag.data.length from rfl]
      exact isPrefL_decomp _ _ (by simpa using h3)
    have hr3nil : (((L.drop vmark.length).dropWhile isPySpace).drop
        vtag.length).dropWhile isPySpace = [] := by
      simpa [List.isEmpty_iff] using h5
    have hws2 : ((L.drop vmark.length).dropWhile isPySpace).drop vtag.length
        = (((L.drop vmark.length).dropWhile isPySpace).drop
            vtag.length).takeWhile isPySpace := by
      conv_lhs => rw [← List.takeWhile_append_dropWhile isPySpace
        (((L.drop vmark.length).dropWhile isPySpace).drop vtag.length)]
      rw [hr3nil, List.append_nil]
    refine ⟨vmark.data ++ ((L.drop vmark.length).takeWhile isPySpace ++ vtag.data),
      (((L.drop vmark.length).dropWhile isPySpace).drop vtag.length).takeWhile isPySpace,
      ?_, ?_, ?_⟩
    · rw [← hws2]
      conv_lhs => rw [hLdec]
      simp only [List.append_assoc]
      rw [← hdec, hconc]
    · intro hcontra
      rw [← hws2] at hcontra
      rw [hcontra] at h4
      simp at h4
    · intro x hx
      exact List.mem_takeWhile_imp hx
  · -- branch A of the pattern: the group starts with a non-whitespace character
    left
    simp [pvStartL, h1, h2, h3, h4, h5] at h
    subst h
    cases hr3 : (((L.drop vmark.length).dropWhile isPySpace).drop
        vtag.length).dropWhile isPySpace with
    | nil => rw [hr3] at h5; simp at h5
    | cons d t =>
      have hd : isPySpace d = false := dropWhile_head_not _ _ _ _ hr3
      have hdn : ¬ d = Char.ofNat 10 := by
        intro hcontra
        rw [hcontra] at hd
        simp [isPySpace] at hd
      rw [List.takeWhile_cons_of_pos (by simp [hdn])]
      exact pyStripList_cons_not_space d _ hd

/-- On a line that is the output of a strip, a successful violation-start
match captures a group that still strips to a nonempty string. -/
theorem pvStartL_stripped_nonempty (s g : List Char)
    (h : pvStartL (pyStripList s) = some g) : pyStripList g ≠ [] := by
  rcases pvStartL_cases _ _ h with h1 | ⟨pre, ws, hLeq, hws, hall⟩
  · exact h1
  · rcases pyStripList_last s with hnil | ⟨l, c, hdec, hc⟩
    · rw [hnil] at hLeq
      have := hLeq.symm
      rw [List.append_eq_nil] at this
      exact absurd this.2 hws
    · rw [hdec] at hLeq
      rcases List.eq_nil_or_concat ws with rfl | ⟨ws2, d, rfl⟩
      · exact absurd rfl hws
      · rw [List.concat_eq_append] at hLeq hall
        have h1 : (l ++ [c]).getLast? = some c := List.getLast?_concat _
        have h2 : (pre ++ (ws2 ++ [d])).getLast? = some d := by
          rw [← List.append_assoc]
          exact List.getLast?_concat _
        rw [hLeq, h2] at h1
        have hd : isPySpace d = true := hall d (by simp)
        cases h1
        simp [hc] at hd

/-! ### The rule field is never modified by the field loop -/

/-- Writing a labeled field leaves the rule unchanged. -/
theorem setField_rule (v : Violation) (f : FieldName) (s : String) :
    (setField v f s).rule = v.rule := by
  cases f <;> rfl

/-- Flushing the buffer leaves the rule unchanged. -/
theorem flushInto_rule (v : Violation) (cf : Option FieldName) (cv : List String) :
    (flushInto v cf cv).rule = v.rule := by
  cases cf with
  | none => rfl
  | some f =>
    simp only [flushInto]
    split_ifs with h
    · exact setField_rule v f _
    · rfl

/-- The field loop leaves the rule unchanged. -/
theorem parseLoop_rule : ∀ (ls : List String) (v : Violation) (cf : Option FieldName)
    (cv : List String), (parseLoop ls v cf cv).1.rule = v.rule := by
  intro ls
  induction ls with
  | nil => intro v cf cv; simp [parseLoop, flushInto_rule]
  | cons l rest ih =>
    intro v cf cv
    simp only [parseLoop]
    by_cases hb : pyStrip l = ""
    · simp [hb, flushInto_rule]
    · rw [if_neg hb]
      cases hlab : labelOf (pyStrip l) with
      | some p =>
        simp only []
        rw [ih, flushInto_rule]
      | none =>
        cases cf with
        | some f => simpa using ih v (some f) (cv ++ [pyStrip l])
        | none =>
          by_cases hr : pyFalsyStr v.reason
          · simp only [hr, if_true]
            rw [ih]
          · simp only [hr]
            rw [if_neg (by simp [hr]), ih]

/-- Claim C8: every violation emitted by `parse_violation_block` carries a
non-empty rule: the captured rule text of a matching (stripped) start line,
after stripping, is never the empty string. -/
theorem c8_rule_nonempty (lines : List String) (idx : Nat) (v : Violation) (n : Nat)
    (h : parse_violation_block lines idx = (some v, n)) : v.rule ≠ "" := by
  unfold parse_violation_block at h
  by_cases hge : idx ≥ lines.length
  · rw [if_pos hge] at h
    simp at h
  · rw [if_neg hge] at h
    cases hm0 : pvStartL (pyStrip (lines.getD idx "")).data with
    | none =>
      rw [show pvStart (pyStrip (lines.getD idx ""))
        = (pvStartL (pyStrip (lines.getD idx "")).data).map String.mk from rfl, hm0] at h
      simp at h
    | some g0 =>
      rw [show pvStart (pyStrip (lines.getD idx ""))
        = (pvStartL (pyStrip (lines.getD idx "")).data).map String.mk from rfl, hm0] at h
      simp only [Option.map_some'] at h
      have hv : v = (parseLoop (lines.drop (idx + 1))
          { rule := pyStrip (String.mk g0) } none []).1 := by
        have := congrArg Prod.fst h
        simpa using this.symm
      rw [hv, parseLoop_rule]
      show pyStrip (String.mk g0) ≠ ""
      have hne := pvStartL_stripped_nonempty (lines.getD idx "").data g0 hm0
      intro hcontra
      apply hne
      have h2 := congrArg String.data hcontra
      simpa using h2

/-- Witness for C8, instantiated at a one-line log holding one violation
start line. -/
theorem c8_rule_nonempty_witness : ({ rule := "minimal.rule" } : Violation).rule ≠ "" :=
  c8_rule_nonempty ["\u00E2\u0153\u2022 [Violation] minimal.rule\n"] 0 { rule := "minimal.rule" } 1 (by decide)

/-- Helper for C5: at an in-range index of a line sequence with no
violation-start line, one parsing step yields no record and advances the
index by one. -/
theorem parse_violation_block_none (lines : List String) (idx : Nat)
    (hlt : idx < lines.length)
    (h : ∀ l ∈ lines, pvStart (pyStrip l) = none) :
    parse_violation_block lines idx = (none, idx + 1) := by
  unfold parse_violation_block
  rw [if_neg (by omega)]
  have hmem : lines.getD idx "" ∈ lines := by
    have hg : lines.getD idx "" = lines[idx] := by
      simp [List.getD, List.getElem?_eq_getElem hlt]
    rw [hg]
    exact List.getElem_mem hlt
  rw [h _ hmem]

/-- Helper for C5: the driver loop returns the empty list, at any fuel and
index, when no line matches the violation-start pattern. -/
theorem extractLoop_no_start (lines : List String)
    (h : ∀ l ∈ lines, pvStart (pyStrip l) = none) :
    ∀ (fuel idx : Nat), extractLoop lines fuel idx = [] := by
  intro fuel
  induction fuel with
  | zero => intro idx; rfl
  | succ f ih =>
    intro idx
    simp only [extractLoop]
    by_cases hlt : idx < lines.length
    · rw [if_pos hlt, parse_violation_block_none lines idx hlt h]
      exact ih (idx + 1)
    · rw [if_neg hlt]

/-- Claim C5: a log file containing zero violation-start lines yields the
empty violation list; the extractor is total, so no error is possible. -/
theorem c5_zero_start_lines (lines : List String)
    (h : ∀ l ∈ lines, pvStart (pyStrip l) = none) :
    extract_violations lines = [] :=
  extractLoop_no_start lines h (lines.length + 1) 0

/-- Witness for C5, instantiated at a three-line log with no
violation-start line. -/
theorem c5_zero_start_lines_witness :
    extract_violations ["STEP-VALIDATE\n", "ImageRef: registry/a\n", "Results:\n"] = [] :=
  c5_zero_start_lines _ (by decide)

/-! ### Heads of stripped strings and joined buffers -/

/-- Dropping a while-prefix past an appended single element that fails the
predicate keeps that element. -/
theorem dropWhile_append_single {α : Type} (p : α → Bool) (c : α) (hc : p c = false) :
    ∀ (u : List α), List.dropWhile p (u ++ [c]) = List.dropWhile p u ++ [c] := by
  intro u
  induction u with
  | nil => simp [List.dropWhile, hc]
  | cons a u ih =>
    by_cases ha : p a
    · simpa [List.dropWhile_cons_of_pos ha] using ih
    · simp [List.dropWhile_cons_of_neg ha]

/-- Trailing-drop commutes with a head element that fails the predicate. -/
theorem dropTrail_cons_neg (p : Char → Bool) (c : Char) (t : List Char) (hc : p c = false) :
    dropTrail p (c :: t) = c :: dropTrail p t := by
  unfold dropTrail
  rw [List.reverse_cons, dropWhile_append_single p c hc, List.reverse_append]
  rfl

/-- Python strip yields either the empty list or a list whose head
character is not whitespace. -/
theorem pyStripList_head (s : List Char) :
    pyStripList s = [] ∨ ∃ c t, pyStripList s = c :: t ∧ isPySpace c = false := by
  unfold pyStripList
  cases hdw : s.dropWhile isPySpace with
  | nil => left; simp [dropTrail]
  | cons c t =>
    right
    have hc : isPySpace c = false := dropWhile_head_not _ _ _ _ hdw
    exact ⟨c, dropTrail isPySpace t, dropTrail_cons_neg _ _ _ hc, hc⟩

/-- Joining a nonempty buffer exposes its first piece as a prefix. -/
theorem joinNLList_cons (a : List Char) (l : List (List Char)) :
    ∃ z, joinNLList (a :: l) = a ++ z := by
  cases l with
  | nil => exact ⟨[], by simp [joinNLList]⟩
  | cons b bs => exact ⟨Char.ofNat 10 :: joinNLList (b :: bs), rfl⟩

/-- A buffer whose entries are nonempty stripped strings flushes to a
nonempty string. -/
theorem pyStrip_joinNL_ne_empty (x : String) (xs : List String)
    (hgood : ∀ w ∈ x :: xs, w ≠ "" ∧ ∃ y, w = pyStrip y) :
    pyStrip (joinNL (x :: xs)) ≠ "" := by
  obtain ⟨hx, y, hy⟩ := hgood x (by simp)
  rcases pyStripList_head y.data with hnil | ⟨c, t, hct, hc⟩
  · refine absurd ?_ hx
    rw [hy]
    show String.mk (pyStripList y.data) = ""
    rw [hnil]
  · obtain ⟨z, hz⟩ := joinNLList_cons x.data (xs.map String.data)
    have hxdata : x.data = c :: t := by
      rw [hy]
      exact hct
    intro hcontra
    have h2 : pyStripList (joinNLList (x.data :: xs.map String.data)) = [] := by
      have := congrArg String.data hcontra
      simpa [pyStrip, joinNL] using this
    rw [hz, hxdata] at h2
    exact pyStripList_cons_not_space c (t ++ z) hc (by simpa using h2)

/-- The seed computed by the label classifier is always the strip of some
string. -/
theorem labelOf_seed (line : String) (f : FieldName) (s : String)
    (h : labelOf line = some (f, s)) : ∃ y, s = pyStrip y := by
  unfold labelOf at h
  split_ifs at h <;>
    (simp only [Option.some.injEq, Prod.mk.injEq] at h; exact ⟨_, h.2.symm⟩)

/-- A line classified as a label line is not blank. -/
theorem labelOf_ne_blank (line : String) (p : FieldName × String)
    (h : labelOf line = some p) : line ≠ "" := by
  intro hcontra
  rw [hcontra] at h
  have hnone : labelOf "" = none := by decide
  rw [hnone] at h
  cases h

/-! ### Flushing labeled fields fed by continuation lines (claim C2) -/

/-- Unlabeled nonblank continuation lines only extend the pending buffer
with their stripped text, each consuming one line of input. -/
theorem parseLoop_continuation :
    ∀ (cs : List String), (∀ c ∈ cs, pyStrip c ≠ "" ∧ labelOf (pyStrip c) = none) →
    ∀ (rest2 : List String) (v : Violation) (f : FieldName) (cv : List String),
    parseLoop (cs ++ rest2) v (some f) cv
      = ((parseLoop rest2 v (some f) (cv ++ cs.map pyStrip)).1,
         (parseLoop rest2 v (some f) (cv ++ cs.map pyStrip)).2 + cs.length) := by
  intro cs
  induction cs with
  | nil =>
    intro _ rest2 v f cv
    simp
  | cons c cs2 ih =>
    intro hcs rest2 v f cv
    obtain ⟨hc1, hc2⟩ := hcs c (by simp)
    simp only [List.cons_append, parseLoop, if_neg hc1, hc2, List.append_eq]
    rw [ih (fun x hx => hcs x (by simp [hx])) rest2 v f (cv ++ [pyStrip c])]
    simp [List.append_assoc, Nat.add_assoc]

/-- A terminator (end of input or a blank line) flushes the pending buffer
without consuming a line. -/
theorem parseLoop_tail (tail : List String)
    (ht : tail = [] ∨ ∃ t rest2, tail = t :: rest2 ∧ pyStrip t = "")
    (v : Violation) (cf : Option FieldName) (cv : List String) :
    parseLoop tail v cf cv = (flushInto v cf cv, 0) := by
  rcases ht with rfl | ⟨t, rest2, rfl, ht0⟩
  · rfl
  · simp [parseLoop, ht0]

/-- Entering the loop with field `f` open over a nonempty buffer, a
sequence of labeled segments followed by a terminator flushes the buffer
into `f` and then every segment in order: interior fields are flushed by
the next label line, the final one by the terminator. -/
theorem parseLoop_segs :
    ∀ (segs : List (String × List String)),
    (∀ p ∈ segs, (labelOf (pyStrip p.1)).isSome = true
        ∧ ∀ c ∈ p.2, pyStrip c ≠ "" ∧ labelOf (pyStrip c) = none) →
    ∀ (tail : List String),
    (tail = [] ∨ ∃ t rest2, tail = t :: rest2 ∧ pyStrip t = "") →
    ∀ (v : Violation) (f : FieldName) (cv : List String), cv ≠ [] →
    (parseLoop (segLines segs ++ tail) v (some f) cv).1
      = applySegs (setField v f (pyStrip (joinNL cv))) segs := by
  intro segs
  induction segs with
  | nil =>
    intro _ tail htail v f cv hcv
    rw [show segLines [] ++ tail = tail from by simp [segLines]]
    rw [parseLoop_tail tail htail]
    simp [flushInto, hcv, applySegs]
  | cons p segs2 ih =>
    intro hsegs tail htail v f cv hcv
    obtain ⟨hiso, hcont⟩ := hsegs p (by simp)
    obtain ⟨fs, hfs⟩ := Option.isSome_iff_exists.mp hiso
    obtain ⟨f1, seed1⟩ := fs
    have hseg : segLines (p :: segs2) ++ tail
        = p.1 :: (p.2 ++ (segLines segs2 ++ tail)) := by
      simp [segLines]
    rw [hseg]
    have hnb : pyStrip p.1 ≠ "" := labelOf_ne_blank _ _ hfs
    simp only [parseLoop, if_neg hnb, hfs]
    rw [parseLoop_continuation p.2 hcont (segLines segs2 ++ tail) _ f1 [seed1]]
    rw [ih (fun q hq => hsegs q (by simp [hq])) tail htail
      (flushInto v (some f) cv) f1 ([seed1] ++ p.2.map pyStrip) (by simp)]
    rw [show flushInto v (some f) cv = setField v f (pyStrip (joinNL cv)) from by
      simp [flushInto, hcv]]
    simp [applySegs, segFlush, hfs]

/-- Counterexample to claim C2 as stated: the parser strips every
continuation line individually, so the flushed value differs from the
trim of the raw lines joined by a newline whenever an interior
continuation line carries leading whitespace. -/
theorem c2_counterexample :
    (parse_violation_block ["\u00E2\u0153\u2022 [Violation] r\n", "Reason: first\n",
        "   second  line\n"] 0).1
      = some { rule := "r", reason := some "first\nsecond  line" }
    ∧ pyStrip (joinNL [" first", "   second  line"]) = "first\n   second  line"
    ∧ ("first\nsecond  line" : String) ≠ "first\n   second  line" := by
  refine ⟨by decide, by decide, by decide⟩

/-- Claim C2 amended: in any violation block made of labeled segments
(each a label line with its unlabeled nonblank continuation lines) closed
by a blank line or the end of input, every labeled field receives the
individually stripped continuation lines, prepended by the seed of its
label line, joined by single newlines, with the surrounding whitespace of
the joined value trimmed; interior fields are flushed by the next label
line and the last by the terminator. -/
theorem c2_amended_flush (start : String) (g : String)
    (segs : List (String × List String)) (tail : List String)
    (hstart : pvStart (pyStrip start) = some g)
    (hsegs : ∀ p ∈ segs, (labelOf (pyStrip p.1)).isSome = true
        ∧ ∀ c ∈ p.2, pyStrip c ≠ "" ∧ labelOf (pyStrip c) = none)
    (htail : tail = [] ∨ ∃ t rest2, tail = t :: rest2 ∧ pyStrip t = "") :
    (parse_violation_block (start :: (segLines segs ++ tail)) 0).1
      = some (applySegs { rule := pyStrip g } segs) := by
  unfold parse_violation_block
  rw [if_neg (by simp)]
  simp only [List.getD_cons_zero, List.drop_succ_cons, List.drop_zero]
  simp only [hstart]
  cases segs with
  | nil =>
    rw [show segLines [] ++ tail = tail from by simp [segLines]]
    rw [parseLoop_tail tail htail]
    simp [flushInto, applySegs]
  | cons p segs2 =>
    obtain ⟨hiso, hcont⟩ := hsegs p (by simp)
    obtain ⟨fs, hfs⟩ := Option.isSome_iff_exists.mp hiso
    obtain ⟨f1, seed1⟩ := fs
    have hseg : segLines (p :: segs2) ++ tail
        = p.1 :: (p.2 ++ (segLines segs2 ++ tail)) := by
      simp [segLines]
    rw [hseg]
    have hnb : pyStrip p.1 ≠ "" := labelOf_ne_blank _ _ hfs
    simp only [parseLoop, if_neg hnb, hfs, flushInto]
    rw [parseLoop_continuation p.2 hcont (segLines segs2 ++ tail) _ f1 [seed1]]
    rw [parseLoop_segs segs2 (fun q hq => hsegs q (by simp [hq])) tail htail
      _ f1 ([seed1] ++ p.2.map pyStrip) (by simp)]
    simp [applySegs, segFlush, hfs]

/-! ### Field values of emitted violations (claim C4) -/

/-- Reading the field just written returns the written value. -/
theorem getField_setField_eq (v : Violation) (f : FieldName) (s : String) :
    getField (setField v f s) f = some s := by
  cases f <;> rfl

/-- Reading a different field is unaffected by a write. -/
theorem getField_setField_ne (v : Violation) (f fn : FieldName) (s : String) (h : f ≠ fn) :
    getField (setField v f s) fn = getField v fn := by
  cases f <;> cases fn <;> first | rfl | exact absurd rfl h

/-- Writing a nonempty value preserves the field invariant. -/
theorem goodViolation_setField (v : Violation) (f : FieldName) (s : String)
    (hv : goodViolation v) (hs : s ≠ "") : goodViolation (setField v f s) := by
  intro fn
  by_cases hf : f = fn
  · subst hf
    exact Or.inr ⟨s, getField_setField_eq v f s, hs⟩
  · rw [getField_setField_ne v f fn s hf]
    exact hv fn

/-- Writing a nonempty reason preserves the field invariant. -/
theorem goodViolation_setReason (v : Violation) (s : String)
    (hv : goodViolation v) (hs : s ≠ "") : goodViolation { v with reason := some s } :=
  goodViolation_setField v .reason s hv hs

/-- Flushing a good buffer preserves the field invariant. -/
theorem goodViolation_flushInto (v : Violation) (cf : Option FieldName) (cv : List String)
    (hv : goodViolation v) (hcv : goodBuffer cv) : goodViolation (flushInto v cf cv) := by
  cases cf with
  | none => exact hv
  | some f =>
    simp only [flushInto]
    split_ifs with h
    · cases cv with
      | nil => exact absurd rfl h
      | cons x xs =>
        exact goodViolation_setField v f _ hv (pyStrip_joinNL_ne_empty x xs hcv)
    · exact hv

/-- Invariant of the field loop: starting from a good record and a good
buffer, and provided every label line of the remaining input carries a
nonempty seed, the finished record is good. -/
theorem parseLoop_good : ∀ (ls : List String),
    (∀ l ∈ ls, (labelOf (pyStrip l)).all (fun p => p.2 ≠ "") = true) →
    ∀ (v : Violation) (cf : Option FieldName) (cv : List String),
    goodViolation v → goodBuffer cv → goodViolation (parseLoop ls v cf cv).1 := by
  intro ls
  induction ls with
  | nil => intro _ v cf cv hv hcv; exact goodViolation_flushInto v cf cv hv hcv
  | cons l rest ih =>
    intro hl v cf cv hv hcv
    have hl0 := hl l (by simp)
    have hlr : ∀ x ∈ rest, (labelOf (pyStrip x)).all (fun p => p.2 ≠ "") = true :=
      fun x hx => hl x (by simp [hx])
    simp only [parseLoop]
    by_cases hb : pyStrip l = ""
    · simpa [hb] using goodViolation_flushInto v cf cv hv hcv
    · rw [if_neg hb]
      cases hlab : labelOf (pyStrip l) with
      | some p =>
        obtain ⟨f, seed⟩ := p
        have hseed : seed ≠ "" := by
          rw [hlab] at hl0
          simpa [Option.all] using hl0
        have hseedstr : ∃ y, seed = pyStrip y := labelOf_seed _ _ _ hlab
        simp only []
        exact ih hlr (flushInto v cf cv) (some f) [seed]
          (goodViolation_flushInto v cf cv hv hcv)
          (by intro x hx; simp at hx; subst hx; exact ⟨hseed, hseedstr⟩)
      | none =>
        cases cf with
        | some f =>
          simp only []
          refine ih hlr v (some f) (cv ++ [pyStrip l]) hv ?_
          intro x hx
          rcases List.mem_append.mp hx with hx1 | hx2
          · exact hcv x hx1
          · simp at hx2
            subst hx2
            exact ⟨hb, _, rfl⟩
        | none =>
          by_cases hfr : pyFalsyStr v.reason = true
          · simp only [hfr, if_pos]
            exact ih hlr _ none cv (goodViolation_setReason v _ hv hb) hcv
          · rw [if_neg hfr]
            refine ih hlr v none (cv ++ [pyStrip l]) hv ?_
            intro x hx
            rcases List.mem_append.mp hx with hx1 | hx2
            · exact hcv x hx1
            · simp at hx2
              subst hx2
              exact ⟨hb, _, rfl⟩

/-- Counterexample to claim C4 as stated: a label line with no value text
that is flushed immediately (here `Reason:` followed by `Title:`) puts the
empty string into the field, so an empty string does stand in for a
missing value. -/
theorem c4_counterexample :
    ((parse_violation_block ["\u00E2\u0153\u2022 [Violation] r\n", "Reason:\n", "Title: t\n", "\n"] 0).1).map
      Violation.reason = some (some "") := by decide

/-- Claim C4 amended: every optional field of an emitted violation is
either absent or a nonempty string, provided every field label line of the
input carries nonempty value text; a bare label line flushed with no
continuation lines is the one way an empty string enters a field. -/
theorem c4_amended (lines : List String) (idx : Nat) (v : Violation) (n : Nat)
    (hl : ∀ l ∈ lines, (labelOf (pyStrip l)).all (fun p => p.2 ≠ "") = true)
    (h : parse_violation_block lines idx = (some v, n)) :
    goodViolation v := by
  unfold parse_violation_block at h
  by_cases hge : idx ≥ lines.length
  · rw [if_pos hge] at h
    simp at h
  · rw [if_neg hge] at h
    cases hm : pvStart (pyStrip (lines.getD idx "")) with
    | none => rw [hm] at h; simp at h
    | some g =>
      rw [hm] at h
      have hv : v = (parseLoop (lines.drop (idx + 1)) { rule := pyStrip g } none []).1 := by
        have := congrArg Prod.fst h
        simpa using this.symm
      rw [hv]
      refine parseLoop_good _ ?_ _ none [] ?_ (by intro x hx; cases hx)
      · intro l hlmem
        exact hl l (List.mem_of_mem_drop hlmem)
      · intro fn
        cases fn <;> exact Or.inl rfl

/-- Witness for the amended C4 at a concrete block whose label lines all
carry values. -/
theorem c4_amended_witness : goodViolation { rule := "r", reason := some "ok" } :=
  c4_amended ["\u00E2\u0153\u2022 [Violation] r\n", "Reason: ok\n", "\n"] 0
    { rule := "r", reason := some "ok" } 2 (by decide) (by decide)

/-! ### Discarded unlabeled lines after the no-label fallback (claim C10) -/

/-- With no current field and a nonempty reason already set, the content of
the pending buffer never influences the loop again. -/
theorem parseLoop_cv_irrelevant :
    ∀ (rest : List String) (v : Violation) (cv cv2 : List String),
    ¬ pyFalsyStr v.reason = true →
    parseLoop rest v none cv = parseLoop rest v none cv2 := by
  intro rest
  induction rest with
  | nil => intro v cv cv2 _; simp [parseLoop, flushInto]
  | cons l rest2 ih =>
    intro v cv cv2 hr
    simp only [parseLoop]
    by_cases hb : pyStrip l = ""
    · simp [hb, flushInto]
    · simp only [if_neg hb]
      cases hlab : labelOf (pyStrip l) with
      | some p => simp [flushInto]
      | none =>
        simp only [if_neg hr]
        rw [ih v (cv ++ [pyStrip l]) (cv2 ++ [pyStrip l]) hr]

/-- Unlabeled nonblank lines reaching a no-field state with the reason
already set are appended to the orphaned buffer and change nothing of the
emitted record. -/
theorem parseLoop_skip_unlabeled :
    ∀ (us : List String), (∀ u ∈ us, pyStrip u ≠ "" ∧ labelOf (pyStrip u) = none) →
    ∀ (rest : List String) (v : Violation) (cv : List String),
    ¬ pyFalsyStr v.reason = true →
    (parseLoop (us ++ rest) v none cv).1 = (parseLoop rest v none cv).1 := by
  intro us
  induction us with
  | nil => intro _ rest v cv _; rfl
  | cons u us2 ih =>
    intro hus rest v cv hr
    obtain ⟨hu1, hu2⟩ := hus u (by simp)
    simp only [List.cons_append, parseLoop, if_neg hu1, hu2, if_neg hr, List.append_eq]
    rw [ih (fun x hx => hus x (by simp [hx])) rest v (cv ++ [pyStrip u]) hr]
    rw [parseLoop_cv_irrelevant rest v (cv ++ [pyStrip u]) cv hr]

/-- Claim C10: once the no-label fallback has consumed the first unlabeled
line as the reason and no labeled field is open, any further unlabeled
nonblank lines are silently discarded: the emitted record is the same as
if those lines were absent. -/
theorem c10_unlabeled_lines_discarded (start r : String) (us rest : List String) (g : String)
    (hstart : pvStart (pyStrip start) = some g)
    (hr : pyStrip r ≠ "" ∧ labelOf (pyStrip r) = none)
    (hus : ∀ u ∈ us, pyStrip u ≠ "" ∧ labelOf (pyStrip u) = none) :
    (parse_violation_block (start :: r :: (us ++ rest)) 0).1
      = (parse_violation_block (start :: r :: rest) 0).1 := by
  obtain ⟨hr1, hr2⟩ := hr
  unfold parse_violation_block
  rw [if_neg (by simp), if_neg (by simp)]
  simp only [List.getD_cons_zero, List.drop_succ_cons, List.drop_zero]
  rw [hstart]
  have hfalsy : pyFalsyStr ({ rule := pyStrip g } : Violation).reason = true := rfl
  simp only [parseLoop, if_neg hr1, hr2, hfalsy, if_pos]
  rw [parseLoop_skip_unlabeled us hus rest
    { rule := pyStrip g, reason := some (pyStrip r) } [] (by simp [pyFalsyStr, hr1])]

/-- Witness for C10 at a concrete block with two discarded lines. -/
theorem c10_unlabeled_lines_discarded_witness :
    (parse_violation_block ["\u00E2\u0153\u2022 [Violation] r\n", "free reason\n", "dropped a\n",
      "dropped b\n", "Title: t\n", "\n"] 0).1
      = (parse_violation_block ["\u00E2\u0153\u2022 [Violation] r\n", "free reason\n",
        "Title: t\n", "\n"] 0).1 :=
  c10_unlabeled_lines_discarded "\u00E2\u0153\u2022 [Violation] r\n" "free reason\n"
    ["dropped a\n", "dropped b\n"] ["Title: t\n", "\n"] "r"
    (by decide) (by decide) (by decide)

/-- Witness for the amended C2 at a two-field block: the reason field is
flushed by the following `Title:` label line and the title field at end
of input. -/
theorem c2_amended_flush_witness :
    (parse_violation_block ["\u00E2\u0153\u2022 [Violation] r\n", "Reason: first\n",
        "  second\n", "Title: t1\n", "  t2\n"] 0).1
      = some { rule := "r", reason := some "first\nsecond", title := some "t1\nt2" } :=
  (c2_amended_flush "\u00E2\u0153\u2022 [Violation] r\n" "r"
      [("Reason: first\n", ["  second\n"]), ("Title: t1\n", ["  t2\n"])] []
      (by decide) (by decide) (Or.inl rfl)).trans (by decide)

/-! ### The correlator precedence (claim C3) -/

/-- The correlator loop returns the first component, in list order, that
matches by any of the three rules. -/
theorem match_loop_eq_find (ref : String) (vd : Option String) :
    ∀ comps : List Component,
    match_loop ref vd comps = comps.find? (matchesComponent ref vd) := by
  intro comps
  induction comps with
  | nil => rfl
  | cons c cs ih =>
    by_cases hm : matchesComponent ref vd c = true
    · rw [List.find?_cons_of_pos cs hm]
      simp only [matchesComponent] at hm
      simp only [match_loop]
      split_ifs at hm ⊢ <;> rfl
    · rw [List.find?_cons_of_neg cs hm]
      simp only [matchesComponent] at hm
      simp only [match_loop]
      split_ifs at hm ⊢ <;> first | exact ih | exact absurd hm (by simp)

/-- Counterexample to claim C3 as stated: with a digest-only match ahead of
an exact match in the component list, the loop returns the digest-only
component, not the exact one — precedence of the three rules is per
component, not global. -/
theorem c3_counterexample :
    match_component_to_violation "registry/a@sha256:AAA"
        [{ containerImage := "registry2/a@sha256:AAA" },
         { containerImage := "registry/a@sha256:AAA" }]
      = some { containerImage := "registry2/a@sha256:AAA" }
    ∧ ({ containerImage := "registry2/a@sha256:AAA" } : Component)
        ≠ { containerImage := "registry/a@sha256:AAA" } :=
  ⟨by decide, by decide⟩

/-- Claim C3 amended: for a nonempty reference the correlator returns the
first component in list order matching any of the three rules (exact,
digest, name-plus-digest-substring, tried in that order per component); in
particular, when the exactly matching component heads the list it is the
one returned. -/
theorem c3_amended (ref : String) (comps : List Component) (href : ref ≠ "") :
    match_component_to_violation ref comps
      = comps.find? (matchesComponent ref (violationDigest ref))
    ∧ (∀ c cs2, comps = c :: cs2 → c.containerImage = ref →
        match_component_to_violation ref comps = some c) := by
  constructor
  · by_cases hc : comps = []
    · subst hc
      unfold match_component_to_violation
      rw [if_pos (Or.inr rfl)]
      rfl
    · unfold match_component_to_violation
      rw [if_neg (by push_neg; exact ⟨href, hc⟩)]
      exact match_loop_eq_find ref (violationDigest ref) comps
  · intro c cs2 hcomps hexact
    subst hcomps
    unfold match_component_to_violation
    rw [if_neg (by push_neg; exact ⟨href, by simp⟩)]
    simp only [match_loop]
    rw [if_neg (by rw [hexact]; exact href), if_pos hexact]

/-- Witness for the amended C3: the exact match heads the list and is
returned. -/
theorem c3_amended_witness :
    match_component_to_violation "registry/a@sha256:AAA"
        [{ containerImage := "registry/a@sha256:AAA" },
         { containerImage := "registry2/a@sha256:AAA" }]
      = some { containerImage := "registry/a@sha256:AAA" } :=
  (c3_amended "registry/a@sha256:AAA"
      [{ containerImage := "registry/a@sha256:AAA" },
       { containerImage := "registry2/a@sha256:AAA" }] (by decide)).2
    { containerImage := "registry/a@sha256:AAA" }
    [{ containerImage := "registry2/a@sha256:AAA" }] rfl (by decide)

/-! ### The image-reference scanner (claims C6 and C7) -/

/-- Central invariant of the scan loop: started with an empty side buffer,
the loop keeps the side buffer empty (the header block in front of it
already consumed every new reference into the main list and the seen set),
and the final main list extends the accumulator with the
first-appearance deduplication of the candidate stream. -/
theorem irLoop_spec : ∀ (rest : List String) (i s : Nat) (inc : Bool)
    (irs seen : List String),
    irLoop rest i s inc [] irs seen
      = (irs ++ dedupFirst seen (irCandidates rest i s), []) := by
  intro rest
  induction rest with
  | nil => intro i s inc irs seen; simp [irLoop, irCandidates, dedupFirst]
  | cons l rest2 ih =>
    intro i s inc irs seen
    by_cases hres : pyStartsWith (pyStrip l) "Results:" = true
    · simp [irLoop, irCandidates, hres, dedupFirst]
    · by_cases hstep : (pyStartsWith (pyStrip l) "STEP-" = true ∧ i > s)
      · simp [irLoop, irCandidates, hres, hstep, dedupFirst]
      · by_cases himg : pyStartsWith (pyStrip l) "ImageRef:" = true
        · by_cases hr0 : pyStrip (pyReplace (pyStrip l) "ImageRef:" "") = ""
          · by_cases hcomp : pyStartsWith (pyStrip l) "COMPONENTS:" = true
            · simp [irLoop, irCandidates, hres, hstep, himg, hr0, hcomp, ih]
            · by_cases hinc : inc = true
              · simp [irLoop, irCandidates, hres, hstep, himg, hr0, hcomp, hinc, ih]
              · simp [irLoop, irCandidates, hres, hstep, himg, hr0, hcomp, hinc, ih]
          · by_cases hrm : pyStrip (pyReplace (pyStrip l) "ImageRef:" "") ∈ seen
            · by_cases hcomp : pyStartsWith (pyStrip l) "COMPONENTS:" = true
              · simp [irLoop, irCandidates, dedupFirst, hres, hstep, himg, hr0, hrm,
                  hcomp, ih]
              · by_cases hinc : inc = true
                · simp [irLoop, irCandidates, dedupFirst, hres, hstep, himg, hr0, hrm,
                    hcomp, hinc, ih]
                · simp [irLoop, irCandidates, dedupFirst, hres, hstep, himg, hr0, hrm,
                    hcomp, hinc, ih]
            · by_cases hcomp : pyStartsWith (pyStrip l) "COMPONENTS:" = true
              · simp [irLoop, irCandidates, dedupFirst, hres, hstep, himg, hr0, hrm,
                  hcomp, ih]
              · by_cases hinc : inc = true
                · simp [irLoop, irCandidates, dedupFirst, hres, hstep, himg, hr0, hrm,
                    hcomp, hinc, ih]
                · simp [irLoop, irCandidates, dedupFirst, hres, hstep, himg, hr0, hrm,
                    hcomp, hinc, ih]
        · by_cases hcomp : pyStartsWith (pyStrip l) "COMPONENTS:" = true
          · simp [irLoop, irCandidates, hres, hstep, himg, hcomp, ih]
          · by_cases hblank : pyStrip l = ""
            · have hdisj : pyStrip l = "" ∨ pyStartsWith (pyStrip l) "Results:" = true :=
                Or.inl hblank
              by_cases hinc : inc = true
              · simp [irLoop, irCandidates, hres, hstep, himg, hcomp, hinc, hdisj, ih]
              · simp [irLoop, irCandidates, hres, hstep, himg, hcomp, hinc, hdisj, ih]
            · have hdisj : ¬ (pyStrip l = "" ∨ pyStartsWith (pyStrip l) "Results:" = true) := by
                push_neg
                exact ⟨hblank, hres⟩
              by_cases hinc : inc = true
              · simp [irLoop, irCandidates, hres, hstep, himg, hcomp, hinc, hdisj, ih]
              · simp [irLoop, irCandidates, hres, hstep, himg, hcomp, hinc, hdisj, ih]

/-- First-appearance deduplication yields no duplicates and nothing from
the seen set. -/
theorem dedupFirst_nodup : ∀ (l seen : List String),
    (dedupFirst seen l).Nodup ∧ ∀ x ∈ dedupFirst seen l, x ∉ seen := by
  intro l
  induction l with
  | nil => intro seen; exact ⟨List.nodup_nil, by simp [dedupFirst]⟩
  | cons x xs ih =>
    intro seen
    by_cases hx : x ∈ seen
    · simpa [dedupFirst, hx] using ih seen
    · obtain ⟨h1, h2⟩ := ih (seen ++ [x])
      constructor
      · rw [dedupFirst, if_neg hx, List.nodup_cons]
        exact ⟨fun hmem => (h2 x hmem) (by simp), h1⟩
      · intro y hy
        rw [dedupFirst, if_neg hx] at hy
        rcases List.mem_cons.mp hy with rfl | hy2
        · exact hx
        · intro hcontra
          exact h2 y hy2 (by simp [hcontra])

/-- First-appearance deduplication is empty exactly when every candidate
was already seen. -/
theorem dedupFirst_eq_nil_iff : ∀ (l seen : List String),
    dedupFirst seen l = [] ↔ ∀ x ∈ l, x ∈ seen := by
  intro l
  induction l with
  | nil => intro seen; simp [dedupFirst]
  | cons x xs ih =>
    intro seen
    by_cases hx : x ∈ seen
    · rw [dedupFirst, if_pos hx, ih seen]
      simp [hx]
    · rw [dedupFirst, if_neg hx]
      simp [hx]

/-- Behavior of the reference extractor once the marker is found: the
output is the first-appearance deduplication of the candidate stream, and
an empty deduplicated stream is the error case. -/
theorem extract_image_refs_spec (lines : List String) (mi : Nat)
    (hmi : findMarkerIdx lines = some mi) :
    extract_image_refs lines
      = (if dedupFirst [] (irCandidates (lines.drop (mi + 1)) (mi + 1) (mi + 1)) = []
         then .error .noRefs
         else .ok (dedupFirst [] (irCandidates (lines.drop (mi + 1)) (mi + 1) (mi + 1)))) := by
  simp only [extract_image_refs, hmi]
  rw [irLoop_spec]
  simp

/-- Claim C6: on success the reference list is exactly the
first-appearance deduplication of the candidate stream of the validate
section, so it has no duplicate values and keeps first-appearance order; a
reference listed both standalone and inside a COMPONENTS sub-list appears
once, at its first position. -/
theorem c6_dedup_first_appearance (lines : List String) (mi : Nat) (refs : List String)
    (hmi : findMarkerIdx lines = some mi)
    (hok : extract_image_refs lines = .ok refs) :
    refs = dedupFirst [] (irCandidates (lines.drop (mi + 1)) (mi + 1) (mi + 1))
    ∧ refs.Nodup := by
  rw [extract_image_refs_spec lines mi hmi] at hok
  by_cases hnil : dedupFirst [] (irCandidates (lines.drop (mi + 1)) (mi + 1) (mi + 1)) = []
  · rw [if_pos hnil] at hok
    cases hok
  · rw [if_neg hnil] at hok
    cases hok
    exact ⟨rfl, (dedupFirst_nodup _ []).1⟩

/-- Witness for C6: the same reference under a standalone `ImageRef:` line
and inside the `COMPONENTS:` sub-list appears once, at its first
position. -/
theorem c6_dedup_first_appearance_witness :
    (["reg/a@sha256:111", "reg/b@sha256:222"] : List String)
        = dedupFirst [] (irCandidates ((["STEP-VALIDATE\n", "ImageRef: reg/a@sha256:111\n",
            "COMPONENTS:\n", "ImageRef: reg/a@sha256:111\n", "ImageRef: reg/b@sha256:222\n",
            "\n", "Results:\n"] : List String).drop 1) 1 1)
      ∧ (["reg/a@sha256:111", "reg/b@sha256:222"] : List String).Nodup :=
  c6_dedup_first_appearance ["STEP-VALIDATE\n", "ImageRef: reg/a@sha256:111\n",
    "COMPONENTS:\n", "ImageRef: reg/a@sha256:111\n", "ImageRef: reg/b@sha256:222\n",
    "\n", "Results:\n"] 0 ["reg/a@sha256:111", "reg/b@sha256:222"] (by rfl) (by rfl)

/-- Claim C7: the extractor succeeds exactly when the section marker is
present and the section holds at least one reference; a success never
carries an empty list. -/
theorem c7_error_iff (lines : List String) :
    ((∃ refs, extract_image_refs lines = .ok refs)
      ↔ (∃ mi, findMarkerIdx lines = some mi
           ∧ irCandidates (lines.drop (mi + 1)) (mi + 1) (mi + 1) ≠ []))
    ∧ ∀ refs, extract_image_refs lines = .ok refs → refs ≠ [] := by
  constructor
  · constructor
    · rintro ⟨refs, hok⟩
      cases hmi : findMarkerIdx lines with
      | none =>
        simp only [extract_image_refs, hmi] at hok
        cases hok
      | some mi =>
        refine ⟨mi, rfl, ?_⟩
        rw [extract_image_refs_spec lines mi hmi] at hok
        by_cases hnil : dedupFirst []
            (irCandidates (lines.drop (mi + 1)) (mi + 1) (mi + 1)) = []
        · rw [if_pos hnil] at hok
          cases hok
        · intro hcand
          exact hnil (by rw [hcand]; rfl)
    · rintro ⟨mi, hmi, hcand⟩
      rw [extract_image_refs_spec lines mi hmi]
      rw [if_neg ?_]
      · exact ⟨_, rfl⟩
      · intro hnil
        rw [dedupFirst_eq_nil_iff] at hnil
        exact hcand (List.eq_nil_iff_forall_not_mem.mpr
          (fun x hx => by simpa using hnil x hx))
  · intro refs hok
    cases hmi : findMarkerIdx lines with
    | none =>
      simp only [extract_image_refs, hmi] at hok
      cases hok
    | some mi =>
      rw [extract_image_refs_spec lines mi hmi] at hok
      by_cases hnil : dedupFirst []
          (irCandidates (lines.drop (mi + 1)) (mi + 1) (mi + 1)) = []
      · rw [if_pos hnil] at hok
        cases hok
      · rw [if_neg hnil] at hok
        cases hok
        exact hnil

/-- Witness for C7 at a two-line log: success is equivalent to the marker
plus a nonempty candidate stream, and the returned list is nonempty. -/
theorem c7_error_iff_witness :
    (∃ mi, findMarkerIdx ["STEP-VALIDATE\n", "ImageRef: x\n"] = some mi
        ∧ irCandidates ((["STEP-VALIDATE\n", "ImageRef: x\n"] : List String).drop (mi + 1))
            (mi + 1) (mi + 1) ≠ [])
    ∧ (["x"] : List String) ≠ [] :=
  ⟨(c7_error_iff ["STEP-VALIDATE\n", "ImageRef: x\n"]).1.mp ⟨["x"], by rfl⟩,
   (c7_error_iff ["STEP-VALIDATE\n", "ImageRef: x\n"]).2 ["x"] (by rfl)⟩

/-! ### Root-shape normalization of the components extractor (claim C9) -/

/-- Claim C9: once the block is recovered and decoded, a plural
`components` key yields its (nonempty) array as the result, an empty
array is an error, a singular `component` key yields a one-element list,
and a document with neither key is an error rather than an empty
success. -/
theorem c9_normalization (lines : List String) (s : String) (data : JVal)
    (hrec : componentsJsonStr lines = some s)
    (hparse : jsonParse s = some data) :
    (∀ l, jGet data "components" = some (JVal.arr l) → l ≠ [] →
        extract_components lines = .ok (JVal.arr l))
    ∧ (jGet data "components" = some (JVal.arr []) →
        extract_components lines = .error .emptyComponents)
    ∧ (jGet data "components" = none → ∀ c, jGet data "component" = some c →
        extract_components lines = .ok (JVal.arr [c]))
    ∧ (jGet data "components" = none → jGet data "component" = none →
        extract_components lines = .error .noComponentKey) := by
  refine ⟨?_, ?_, ?_, ?_⟩
  · intro l hc hl
    simp only [extract_components, hrec, hparse, hc]
    rw [if_neg (by simp [jFalsy, hl])]
  · intro hc
    simp only [extract_components, hrec, hparse, hc]
    rw [if_pos (by simp [jFalsy])]
  · intro hc c hcc
    simp only [extract_components, hrec, hparse, hc, hcc]
    rw [if_neg (by simp [jFalsy])]
  · intro hc hcc
    simp only [extract_components, hrec, hparse, hc, hcc]

/-- Witness for C9 at a two-line singular-key block: the single component
is wrapped into a one-element list. -/
theorem c9_normalization_witness :
    extract_components ["\x7b \"component\":\n", "  \x7b\"name\": \"solo\"\x7d \x7d\n",
        "after\n"]
      = .ok (JVal.arr [JVal.obj [("name", JVal.str "solo")]]) :=
  (c9_normalization ["\x7b \"component\":\n", "  \x7b\"name\": \"solo\"\x7d \x7d\n", "after\n"]
      "\x7b \"component\":\n  \x7b\"name\": \"solo\"\x7d \x7d\n"
      (JVal.obj [("component", JVal.obj [("name", JVal.str "solo")])])
      (by rfl) (by rfl)).2.2.1 (by rfl) (JVal.obj [("name", JVal.str "solo")]) (by rfl)

/-! ### Brace counting inside string values (claim C1) -/

/-- Claim C1 fails on the code: on a log whose components block holds a
literal opening brace inside a string value, the recovery never balances,
the loop swallows the trailing line, and the extraction fails — while the
true top-level block (the first three lines) is valid JSON whose
components value is a nonempty array, so the intended recovery exists.
The specification itself flags this unsoundness of raw brace counting as
a latent bug of the source. -/
theorem c1_brace_in_string_code_bug :
    extract_components ["\x7b \"components\": [\n", "  \x7b\"name\": \"a\x7bb\"\x7d\n",
        "] \x7d\n", "tail\n"]
      = .error .parseFailed
    ∧ jsonParse (concatAll ["\x7b \"components\": [\n", "  \x7b\"name\": \"a\x7bb\"\x7d\n",
        "] \x7d\n"])
        = some (JVal.obj [("components", JVal.arr [JVal.obj [("name", JVal.str "a\x7bb")]])])
    ∧ jFalsy (JVal.arr [JVal.obj [("name", JVal.str "a\x7bb")]]) = false :=
  ⟨by rfl, by rfl, by rfl⟩
